import Mathlib

/-!
Verification of `gspread_dataframe.py` (conversion between pandas DataFrames
and Google Sheets worksheets).

The development shallowly embeds the module's pure logic:

* `_escaped_string` / `_cellrepr` — the per-cell serializer;
* `fill_gaps`, the cell enumeration and the defaultdict-based
  re-rectangularization of `_get_all_values` — the read pipeline's gap filler;
* `set_with_dataframe` / `set_with_dataframes` — the write planners, modelled
  as functions from a dataframe and layout flags to the ordered list of
  `(row, col, literal)` cell updates submitted in one batch, together with the
  worksheet state after the call;
* `_resize_to_minimum` — the (never invoked) minimum-resize helper;
* a sheet-storage and `TextParser` model (marked `Modelled from the spec:`)
  for the write/read round trip.

Machine integers do not overflow anywhere in the source, so rows/columns are
`Nat` and numeric cell payloads are `Int`.  Fallible serialization returns
`Except`.
-/

set_option linter.unusedVariables false

namespace GspreadDF

/-! ### Definitions: the shallow embedding of the module -/

/-- A Python value as it can appear in a dataframe cell, restricted to the
shapes the source code distinguishes: `pynone` stands for any null value
(`None` / `NaN`, i.e. `pd.isnull(value) is True`); `num` for a non-boolean
`numbers.Real` instance; `bool` for a Python `bool` (which is *also* an
instance of `numbers.Real`); `str` for a text value.  (`str(value)` of other
objects produces a text value and is subsumed by `str`.) -/

inductive PyValue where
  | pynone : PyValue
  | num : Int → PyValue
  | bool : Bool → PyValue
  | str : String → PyValue
  deriving DecidableEq

/-- The error raised by `_escaped_string` for an unrecognized
`string_escaping` argument (a `ValueError` in the source; the specification
calls it `ConfigurationError`). -/
inductive ConfError where
  | configError : ConfError
  deriving DecidableEq

/-- A cell literal as submitted to the Sheets API: a string, or a number /
boolean passed through unchanged. -/
inductive Lit where
  | s : String → Lit
  | n : Int → Lit
  | b : Bool → Lit
  deriving DecidableEq

/-- The `string_escaping` argument: one of the three recognized tags, a
callable predicate, or anything else (`invalid`, the fall-through `else`
branch of `_escaped_string`). -/
inductive StringEscaping where
  | default : StringEscaping
  | off : StringEscaping
  | full : StringEscaping
  | callable : (String → Bool) → StringEscaping
  | invalid : StringEscaping

instance {ε α : Type} [DecidableEq ε] [DecidableEq α] : DecidableEq (Except ε α) := fun a b =>
  match a, b with
  | .ok x, .ok y =>
      if h : x = y then isTrue (by rw [h]) else isFalse (by intro hh; cases hh; exact h rfl)
  | .error x, .error y =>
      if h : x = y then isTrue (by rw [h]) else isFalse (by intro hh; cases hh; exact h rfl)
  | .ok _, .error _ => isFalse (by intro hh; cases hh)
  | .error _, .ok _ => isFalse (by intro hh; cases hh)

/-- Python's `value.startswith(c)` for a single character `c`, as a head
test on the string's character list. -/
def strStarts (s : String) (c : Char) : Bool :=
  match s.data with
  | [] => false
  | a :: _ => a == c

/-- `_escaped_string(value, string_escaping)` from the source.  `value` is
always a `str` by the time it is called (so the Python check
`value in (None, "")` is the test `value = ""`).  The `if/elif` chain:
`'default'` quotes strings that start with a literal quote, `'off'` returns
the string unchanged, `'full'` always quotes, a callable quotes when it
returns true, and any other argument raises. -/
def _escaped_string (value : String) (string_escaping : StringEscaping) :
    Except ConfError String :=
  if value = "" then .ok ""
  else
    match string_escaping with
    | .default => if strStarts value '\'' then .ok ("'" ++ value) else .ok value
    | .off => .ok value
    | .full => .ok ("'" ++ value)
    | .callable f => if f value then .ok ("'" ++ value) else .ok value
    | .invalid => .error .configError

/-- `_cellrepr(value, allow_formulas, string_escaping)` from the source:
null values map to the empty string; `numbers.Real` instances (numbers and
booleans) are returned unchanged; strings that start with `=` are
quote-escaped when `allow_formulas` is false, short-circuiting the
`string_escaping` policy; all other strings go through `_escaped_string`. -/
def _cellrepr (value : PyValue) (allow_formulas : Bool)
    (string_escaping : StringEscaping) : Except ConfError Lit :=
  match value with
  | .pynone => .ok (.s "")
  | .num x => .ok (.n x)
  | .bool b => .ok (.b b)
  | .str s =>
      if !allow_formulas && strStarts s '=' then .ok (.s ("'" ++ s))
      else (_escaped_string s string_escaping).map .s

/-- A worksheet's declared grid size (`worksheet.row_count`,
`worksheet.col_count`). -/
structure Worksheet where
  row_count : Nat
  col_count : Nat
  deriving DecidableEq

/-- A cell as in `gspread.models.Cell`: 1-based row and column indices plus a
string value. -/
structure Cell where
  row : Nat
  col : Nat
  value : String
  deriving DecidableEq

/-- Right-pad a row with empty strings to length at least `n` (gspread's
row padding; a row already longer than `n` is returned unchanged, since
in Python `[''] * negative` is empty). -/
def rightPad (row : List String) (n : Nat) : List String :=
  row ++ List.replicate (n - row.length) ""

/-- `gspread.utils.fill_gaps(values, rows, cols)`, the external gspread
helper `_get_all_values` delegates to: pad the listing to at least `rows`
rows (a longer listing is kept), then right-pad every row to at least `cols`
columns. -/
def fill_gaps (L : List (List String)) (rows cols : Nat) : List (List String) :=
  (L ++ List.replicate (rows - L.length) []).map (fun r => rightPad r cols)

/-- Cells of one row: `for j, value in enumerate(row)` at 1-based row index
`i`, with 1-based column indices starting at `j`. -/
def rowCells (i : Nat) : Nat → List String → List Cell
  | _, [] => []
  | j, v :: vs => ⟨i, j, v⟩ :: rowCells i (j + 1) vs

/-- `for i, row in enumerate(rect_values)` with `row_offset = 1`: cells of
all rows, 1-based rows numbered from `k`. -/
def rectCells : Nat → List (List String) → List Cell
  | _, [] => []
  | k, row :: rest => rowCells k 1 row ++ rectCells (k + 1) rest

/-- The defaultdict lookup `rows[i][j]` after inserting all cells in order:
the last assignment to `(i, j)` wins; a missing entry yields `""`.  `a` is
the value before any insertion. -/
def lastWriteFrom (a : String) (cells : List Cell) (i j : Nat) : String :=
  cells.foldl (fun acc c => if c.row = i ∧ c.col = j then c.value else acc) a

/-- `rows[i][j]` for the defaultdict built from `cells`. -/
def lastWrite (cells : List Cell) (i j : Nat) : String :=
  lastWriteFrom "" cells i j

/-- `max(rows.keys())`: the largest row index among the cells. -/
def maxRowOf (cells : List Cell) : Nat :=
  cells.foldl (fun a c => max a c.row) 0

/-- `max(all_row_keys)`: the largest column index among the cells. -/
def maxColOf (cells : List Cell) : Nat :=
  cells.foldl (fun a c => max a c.col) 0

/-- Lines 137-150 of the source: rebuild a dense grid from the cell list via
defaultdicts; if no cell was inserted (`if not rows`) return `[]`, otherwise
emit `[[rows[i][j] for j in range(1, maxcol+1)] for i in range(1, maxrow+1)]`. -/
def denseFromCells (cells : List Cell) : List (List String) :=
  if cells = [] then []
  else
    (List.range (maxRowOf cells)).map (fun i =>
      (List.range (maxColOf cells)).map (fun j => lastWrite cells (i + 1) (j + 1)))

/-- `_get_all_values(worksheet, evaluate_formulas)` minus the network fetch:
`values` is the sparse listing `data.get("values", [])` returned by the API
(`evaluate_formulas` only selects the render option of the request and does
not transform the returned data).  With `(row_offset, column_offset) = (1, 1)`
the source calls `fill_gaps(values, rows=row_count, cols=col_count)`,
enumerates every position of the result as a `Cell`, and re-rectangularizes
through the defaultdicts. -/
def _get_all_values (ws : Worksheet) (values : List (List String)) :
    List (List String) :=
  denseFromCells (rectCells 1 (fill_gaps values ws.row_count ws.col_count))

/-- The largest value in a list of naturals (0 for the empty list). -/
def listMax (l : List Nat) : Nat := l.foldl max 0

/-- The largest 1-based row index that has a cell in the sparse listing
(trailing listed-but-empty rows carry no cell and do not count). -/
def maxRowPresent (values : List (List String)) : Nat :=
  values.foldr (fun row acc => if acc = 0 ∧ row = [] then 0 else acc + 1) 0

/-- The largest 1-based column index that has a cell in the sparse listing. -/
def maxColPresent (values : List (List String)) : Nat :=
  listMax (values.map List.length)

/-- Total 0-based access into a grid, `""` out of bounds. -/
def gridGet (g : List (List String)) (i j : Nat) : String :=
  (g.getD i []).getD j ""

/-- A pandas DataFrame as consumed by the writers, with a single-level
index: `columns` are the column labels, `index_names` is the
`dataframe.index.names` list (for a single-level index, the one-element
list holding `index.name`, possibly `None`), `index` holds the index
values and `values` the data rows.  pandas guarantees
`len(dataframe.values) == len(dataframe.index)`; that invariant is `hlen`,
under which Python's `zip_longest(values, index)` agrees with `zip`.
(Multi-level indexes/columns are the spec's open extension point and are
not modelled.) -/
structure DataFrame where
  columns : List PyValue
  index_names : List PyValue
  index : List PyValue
  values : List (List PyValue)
  hlen : values.length = index.length

/-- One planned cell write: (1-based row, 1-based column, literal). -/
abbrev Update := Nat × Nat × Lit

/-- `for idx, val in enumerate(elts): updates.append((row, col+idx,
_cellrepr(val, allow_formulas, string_escaping)))`: one row of updates at
row `r` and columns `c`, `c+1`, ...  The first failing cell aborts the call
(Python raises there). -/
def planRow (r c : Nat) (af : Bool) (se : StringEscaping) :
    List PyValue → Except ConfError (List Update)
  | [] => .ok []
  | v :: vs => do
      let w ← _cellrepr v af se
      let rest ← planRow r (c + 1) af se vs
      pure ((r, c, w) :: rest)

/-- `for y_idx, value_row in enumerate(values): for x_idx, cell_value in
enumerate(value_row): updates.append((y_idx+row, x_idx+col, _cellrepr(...)))`:
the data rows, numbered from `r`. -/
def planRows (r c : Nat) (af : Bool) (se : StringEscaping) :
    List (List PyValue) → Except ConfError (List Update)
  | [] => .ok []
  | row :: rest => do
      let l ← planRow r c af se row
      let ls ← planRows (r + 1) c af se rest
      pure (l ++ ls)

/-- `elts`: the header row contents — `list(dataframe.columns)`, preceded by
the index level names when `include_index` is set. -/
def headerElts (df : DataFrame) (include_index : Bool) : List PyValue :=
  if include_index then df.index_names ++ df.columns else df.columns

/-- The data matrix: the rows iterated by `zip_longest(dataframe.values,
dataframe.index)`, each row prepended with its (scalar, hence
singleton-wrapped) index value when `include_index` is set. -/
def dataMatrix (df : DataFrame) (include_index : Bool) : List (List PyValue) :=
  (df.values.zip df.index).map (fun p => if include_index then p.2 :: p.1 else p.1)

/-- The update list `set_with_dataframe` builds before submission: when
`include_column_header`, the header row at `row` and `row += 1`; then the
data rows. -/
def set_with_dataframe_updates (df : DataFrame) (row col : Nat)
    (include_index include_column_header allow_formulas : Bool)
    (se : StringEscaping) : Except ConfError (List Update) := do
  let hdr ← if include_column_header then
      planRow row col allow_formulas se (headerElts df include_index)
    else pure []
  let body ← planRows (if include_column_header then row + 1 else row) col
      allow_formulas se (dataMatrix df include_index)
  pure (hdr ++ body)

/-- `set_with_dataframe(worksheet, dataframe, row, col, include_index,
include_column_header, resize, allow_formulas, string_escaping)`: returns
the worksheet state after the call together with the cell batch submitted
through `update_cells` (an empty batch means the function returned before
any network call).  The worksheet is returned unchanged: the source accepts
and documents `resize`, but its body never calls `worksheet.resize` nor
`_resize_to_minimum`. -/
def set_with_dataframe (ws : Worksheet) (df : DataFrame) (row col : Nat)
    (include_index include_column_header resize allow_formulas : Bool)
    (se : StringEscaping) : Except ConfError (Worksheet × List Update) :=
  (set_with_dataframe_updates df row col include_index include_column_header
    allow_formulas se).map (fun updates => (ws, updates))

/-- `_resize_to_minimum(worksheet, rows, cols)` from the source: a dimension
no larger than the current one is reset to `None`; if any dimension remains,
`worksheet.resize(rows, cols)` is called (a `None` argument keeps the current
value).  The function is defined in the module but never called. -/
def _resize_to_minimum (ws : Worksheet) (rows cols : Option Nat) : Worksheet :=
  let rows := match rows with
    | some r => if r ≤ ws.row_count then none else some r
    | none => none
  let cols := match cols with
    | some c => if c ≤ ws.col_count then none else some c
    | none => none
  if rows ≠ none ∨ cols ≠ none then
    ⟨rows.getD ws.row_count, cols.getD ws.col_count⟩
  else ws

/-- The per-table loop of `set_with_dataframes`: for every
`(dataframe, row)` pair of `zip(dataframe_list, row_list)` the header row is
emitted UNCONDITIONALLY (the `if include_column_header:` guard of the
single-table writer is absent from the source), `row += 1`, then the data
rows; all updates are concatenated. -/
def planTables (col : Nat) (include_index allow_formulas : Bool)
    (se : StringEscaping) :
    List (DataFrame × Nat) → Except ConfError (List Update)
  | [] => .ok []
  | (df, row) :: rest => do
      let hdr ← planRow row col allow_formulas se (headerElts df include_index)
      let body ← planRows (row + 1) col allow_formulas se
        (dataMatrix df include_index)
      let more ← planTables col include_index allow_formulas se rest
      pure (hdr ++ body ++ more)

/-- The update list `set_with_dataframes` builds before its single
submission.  `include_column_header` is accepted but unused. -/
def set_with_dataframes_updates (dfs : List DataFrame) (rows : List Nat)
    (col : Nat) (include_index include_column_header allow_formulas : Bool)
    (se : StringEscaping) : Except ConfError (List Update) :=
  planTables col include_index allow_formulas se (dfs.zip rows)

/-- `set_with_dataframes(worksheet, dataframe_list, row_list, col, ...)`:
like `set_with_dataframe` but over several tables sharing one anchor
column, submitting one batch.  As in the single-table writer, `resize` is
never acted on and the worksheet is returned unchanged. -/
def set_with_dataframes (ws : Worksheet) (dfs : List DataFrame)
    (rows : List Nat) (col : Nat)
    (include_index include_column_header resize allow_formulas : Bool)
    (se : StringEscaping) : Except ConfError (Worksheet × List Update) :=
  (set_with_dataframes_updates dfs rows col include_index
    include_column_header allow_formulas se).map (fun updates => (ws, updates))

/-- Modelled from the spec: how the remote sheet stores a submitted literal
under the `USER_ENTERED` input option — a leading quote character of a
string is consumed as the text-escape marker (the remainder is stored as
text); numbers and booleans are stored natively and render as their
canonical text. -/
def storeLiteral : Lit → String
  | .s v => if strStarts v '\'' then ⟨v.data.drop 1⟩ else v
  | .n x => toString x
  | .b b => if b then "TRUE" else "FALSE"

/-- Modelled from the spec: the remote sheet's cell contents as a total map
from 1-based (row, column) to the stored cell text, `""` meaning blank. -/
def SheetFun := Nat → Nat → String

/-- A sheet with every cell blank. -/
def emptySheet : SheetFun := fun _ _ => ""

/-- Modelled from the spec: `worksheet.update_cells(cells,
value_input_option='USER_ENTERED')` applies the batch in order; a later
write to the same position wins. -/
def applyUpdates (g : SheetFun) (ups : List Update) : SheetFun :=
  ups.foldl
    (fun g u => fun r c => if r = u.1 ∧ c = u.2.1 then storeLiteral u.2.2 else g r c) g

/-- Modelled from the spec: the `values_get` listing of the sheet's declared
R x C rectangle (the spec permits the listing to keep trailing blanks). -/
def sheetListing (g : SheetFun) (R C : Nat) : List (List String) :=
  (List.range R).map (fun i => (List.range C).map (fun j => g (i + 1) (j + 1)))

/-- Modelled from the spec: `pandas.io.parsers.TextParser` with default
options — the first grid row becomes the column labels, the remaining rows
become the data rows, all as text. -/
def tableFromGrid (grid : List (List String)) : List String × List (List String) :=
  match grid with
  | [] => ([], [])
  | h :: t => (h, t)

/-- `get_as_dataframe(worksheet, evaluate_formulas=False, ...)` minus the
network fetch: the source passes `_get_all_values(...)` to `TextParser` and
reads it; the sheet state stands in for the remote fetch, and the parser is
modelled from the spec by `tableFromGrid`. -/
def get_as_dataframe (ws : Worksheet) (g : SheetFun) :
    List String × List (List String) :=
  tableFromGrid (_get_all_values ws (sheetListing g ws.row_count ws.col_count))

/-- The literal `_cellrepr` returns under `allow_formulas = true` and the
`default` escaping policy, as a total function. -/
def defLit : PyValue → Lit
  | .pynone => .s ""
  | .num x => .n x
  | .bool b => .b b
  | .str s => .s (if strStarts s '\'' then "'" ++ s else s)

/-- The text a value reads back as from the sheet. For a string value it is
the string itself; nulls read back blank. -/
def pyText : PyValue → String
  | .pynone => ""
  | .num x => toString x
  | .bool b => if b then "TRUE" else "FALSE"
  | .str s => s

/-- The updates of one header/data row under the default policy. -/
def planRowDefault (r c : Nat) : List PyValue → List Update
  | [] => []
  | v :: vs => (r, c, defLit v) :: planRowDefault r (c + 1) vs

/-- The updates of the data rows under the default policy. -/
def planRowsDefault (r c : Nat) : List (List PyValue) → List Update
  | [] => []
  | row :: rest => planRowDefault r c row ++ planRowsDefault (r + 1) c rest

/-- A concrete dataframe for the write examples: one column "A", two data
rows holding 1 and 2, a nameless single-level range index. -/
def df1 : DataFrame := ⟨[.str "A"], [.pynone], [.num 0, .num 1], [[.num 1], [.num 2]], rfl⟩

/-- A concrete two-column table containing a plain string, a formula
string, a quote-led string and the empty string. -/
def df2 : DataFrame :=
  ⟨[.str "A", .str "B"], [.pynone], [.num 0, .num 1],
    [[.str "x", .str "=f"], [.str "'q", .str ""]], rfl⟩

/-! ### Theorems -/

/-- The head test on the empty string is false. -/
theorem strStarts_empty (c : Char) : strStarts "" c = false := rfl

/-- Claim C3: for every string starting with `=`, the serializer called with
`allow_formulas = false` returns the string prefixed with a single quote, for
every `string_escaping` policy (including `off`, a callable, and an invalid
value) — formula escaping is checked first and short-circuits. -/
theorem cellrepr_formula_escape (s : String) (se : StringEscaping)
    (h : strStarts s '=' = true) :
    _cellrepr (.str s) false se = .ok (.s ("'" ++ s)) := by
  simp [_cellrepr, h]

/-- Witness for C3 at the spec's own example, with the `off` policy. -/
theorem cellrepr_formula_escape_w :
    strStarts "=SUM(A1:A2)" '=' = true ∧
      _cellrepr (.str "=SUM(A1:A2)") false .off = .ok (.s ("'" ++ "=SUM(A1:A2)")) :=
  ⟨by decide, cellrepr_formula_escape "=SUM(A1:A2)" .off (by decide)⟩

/-- Claim C4 counterexample: with the `full` policy the serializer does *not*
quote the empty string (`_escaped_string` returns `""` before the policy
dispatch), refuting the claim's "including when v is the empty string". -/
theorem cellrepr_full_empty_cex :
    _cellrepr (.str "") true .full ≠ .ok (.s ("'" ++ "")) := by
  decide

/-- Claim C4 (amended): for a string value that does not trigger formula
escaping, the `full` policy quotes every *non-empty* string; the empty string
serializes to the empty string. -/
theorem cellrepr_full_quotes (s : String) (af : Bool)
    (h : af = true ∨ strStarts s '=' = false) :
    _cellrepr (.str s) af .full = .ok (.s (if s = "" then "" else "'" ++ s)) := by
  have hcond : (!af && strStarts s '=') = false := by
    rcases h with h | h <;> simp [h]
  by_cases hs : s = ""
  · subst hs
    simp [_cellrepr, _escaped_string, hcond, Except.map, strStarts_empty]
  · simp [_cellrepr, _escaped_string, hcond, hs, Except.map]

/-- Witness for C4's amended theorem at a non-empty string and at the empty
string. -/
theorem cellrepr_full_quotes_w :
    _cellrepr (.str "hello") true .full
        = .ok (.s (if ("hello" : String) = "" then "" else "'" ++ "hello")) ∧
      _cellrepr (.str "") true .full
        = .ok (.s (if ("" : String) = "" then "" else "'" ++ "")) :=
  ⟨cellrepr_full_quotes "hello" true (Or.inl rfl),
    cellrepr_full_quotes "" true (Or.inl rfl)⟩

/-- Claim C8 counterexample: with an invalid `string_escaping`, serializing a
null value succeeds (returns `""`) instead of failing — validation is lazy,
so "serializing a cell value fails with a ConfigurationError" is false as a
statement about every cell value. -/
theorem invalid_policy_null_ok_cex :
    _cellrepr .pynone true .invalid = .ok (.s "") ∧
      _cellrepr .pynone true .invalid ≠ .error .configError := by
  constructor
  · rfl
  · decide

/-- Shared helper: characterization of when `_cellrepr` errors. -/
theorem cellrepr_error_aux (v : PyValue) (af : Bool) (se : StringEscaping) :
    (∀ e, _cellrepr v af se = .error e → e = .configError ∧ se = .invalid) ∧
      (_cellrepr v af .invalid = .error .configError ↔
        ∃ s, v = .str s ∧ s ≠ "" ∧ (!af && strStarts s '=') = false) := by
  constructor
  · intro e he
    cases v with
    | pynone => simp [_cellrepr] at he
    | num x => simp [_cellrepr] at he
    | bool b => simp [_cellrepr] at he
    | str s =>
        by_cases hf : (!af && strStarts s '=') = true
        · simp [_cellrepr, hf] at he
        · have hf' : (!af && strStarts s '=') = false := by simpa using hf
          by_cases hs : s = ""
          · subst hs
            simp [_cellrepr, _escaped_string, hf', Except.map] at he
          · cases se with
            | invalid =>
                cases e
                exact ⟨rfl, rfl⟩
            | default =>
                by_cases hq : strStarts s '\'' = true <;>
                  simp [_cellrepr, _escaped_string, hf', hs, hq, Except.map] at he
            | off => simp [_cellrepr, _escaped_string, hf', hs, Except.map] at he
            | full => simp [_cellrepr, _escaped_string, hf', hs, Except.map] at he
            | callable f =>
                by_cases hq : f s = true <;>
                  simp [_cellrepr, _escaped_string, hf', hs, hq, Except.map] at he
  · constructor
    · intro he
      cases v with
      | pynone => simp [_cellrepr] at he
      | num x => simp [_cellrepr] at he
      | bool b => simp [_cellrepr] at he
      | str s =>
          refine ⟨s, rfl, ?_, ?_⟩
          · intro hs
            subst hs
            simp [_cellrepr, _escaped_string, strStarts_empty, Except.map] at he
          · by_cases hf : (!af && strStarts s '=') = true
            · simp [_cellrepr, hf] at he
            · simpa using hf
    · rintro ⟨s, rfl, hs, hf⟩
      simp [_cellrepr, _escaped_string, hf, hs, Except.map]

/-- Claim C8 (amended): the serializer fails exactly when the policy is
invalid and the value is a non-empty string that is not formula-escaped; the
invalid-policy `ConfigurationError` is the only error it ever raises (for any
policy). -/
theorem cellrepr_error_characterization (v : PyValue) (af : Bool) (se : StringEscaping) :
    (∀ e, _cellrepr v af se = .error e → e = .configError ∧ se = .invalid) ∧
      (_cellrepr v af .invalid = .error .configError ↔
        ∃ s, v = .str s ∧ s ≠ "" ∧ (!af && strStarts s '=') = false) :=
  cellrepr_error_aux v af se

/-- Witness for C8's amended theorem: a non-empty non-formula string under the
invalid policy errors. -/
theorem cellrepr_error_characterization_w :
    _cellrepr (.str "x") true .invalid = .error .configError :=
  (cellrepr_error_characterization (.str "x") true .invalid).2.mpr
    ⟨"x", rfl, by decide, by decide⟩

/-- Claim C9: policy validation is lazy and per-cell.  With an invalid
`string_escaping`, the serializer still succeeds on nulls (empty string),
reals and booleans (unchanged), the empty string, and — when
`allow_formulas` is false — on strings starting with `=`; the error is raised
only for a non-empty, non-formula-escaped text value. -/
theorem invalid_policy_lazy (af : Bool) :
    _cellrepr .pynone af .invalid = .ok (.s "") ∧
      (∀ x : Int, _cellrepr (.num x) af .invalid = .ok (.n x)) ∧
      (∀ b : Bool, _cellrepr (.bool b) af .invalid = .ok (.b b)) ∧
      _cellrepr (.str "") af .invalid = .ok (.s "") ∧
      (∀ s, strStarts s '=' = true →
        _cellrepr (.str s) false .invalid = .ok (.s ("'" ++ s))) ∧
      (∀ v e, _cellrepr v af .invalid = .error e →
        ∃ s, v = .str s ∧ s ≠ "" ∧ (!af && strStarts s '=') = false) := by
  refine ⟨rfl, fun x => rfl, fun b => rfl, ?_, ?_, ?_⟩
  · simp [_cellrepr, _escaped_string, strStarts_empty, Except.map]
  · intro s h
    simp [_cellrepr, h]
  · intro v e he
    have h1 := (cellrepr_error_aux v af .invalid).1 e he
    have h2 := (cellrepr_error_aux v af .invalid).2.mp (h1.1 ▸ he)
    exact h2

/-- Witness for C9 at `allow_formulas = true`, exercising the formula clause
at a concrete formula string. -/
theorem invalid_policy_lazy_w :
    _cellrepr .pynone true .invalid = .ok (.s "") ∧
      _cellrepr (.str "=1") false .invalid = .ok (.s ("'" ++ "=1")) :=
  ⟨(invalid_policy_lazy true).1,
    (invalid_policy_lazy true).2.2.2.2.1 "=1" (by decide)⟩

/-- Claim C10: Python booleans are `numbers.Real` instances, so `_cellrepr`
returns them unchanged as a numeric pass-through for every combination of
flags — never stringified, formula-escaped or quote-escaped. -/
theorem cellrepr_bool_passthrough (b : Bool) (af : Bool) (se : StringEscaping) :
    _cellrepr (.bool b) af se = .ok (.b b) := rfl

theorem foldl_max_init (l : List Nat) (a : Nat) : l.foldl max a = max a (listMax l) := by
  induction l generalizing a with
  | nil => simp [listMax]
  | cons x xs ih =>
      rw [show listMax (x :: xs) = xs.foldl max (max 0 x) from rfl,
        List.foldl_cons, ih, ih, Nat.zero_max, Nat.max_assoc]

theorem listMax_cons (x : Nat) (xs : List Nat) :
    listMax (x :: xs) = max x (listMax xs) := by
  rw [show listMax (x :: xs) = xs.foldl max (max 0 x) from rfl, foldl_max_init,
    Nat.zero_max]

theorem listMax_append (l1 l2 : List Nat) :
    listMax (l1 ++ l2) = max (listMax l1) (listMax l2) := by
  rw [listMax, List.foldl_append, foldl_max_init, ← listMax]

theorem le_listMax (l : List Nat) (a : Nat) (h : a ∈ l) : a ≤ listMax l := by
  induction l with
  | nil => cases h
  | cons x xs ih =>
      rw [listMax_cons]
      rcases List.mem_cons.mp h with h | h
      · exact h ▸ Nat.le_max_left _ _
      · exact Nat.le_trans (ih h) (Nat.le_max_right _ _)

theorem listMax_le (l : List Nat) (b : Nat) (h : ∀ a ∈ l, a ≤ b) :
    listMax l ≤ b := by
  induction l with
  | nil => simp [listMax]
  | cons x xs ih =>
      rw [listMax_cons]
      exact Nat.max_le.mpr ⟨h x (List.mem_cons_self _ _), ih fun a ha => h a (List.mem_cons_of_mem _ ha)⟩

theorem maxRowOf_eq (cells : List Cell) :
    maxRowOf cells = listMax (cells.map Cell.row) := by
  rw [maxRowOf, listMax, List.foldl_map]

theorem maxColOf_eq (cells : List Cell) :
    maxColOf cells = listMax (cells.map Cell.col) := by
  rw [maxColOf, listMax, List.foldl_map]

theorem maxRowOf_append (l1 l2 : List Cell) :
    maxRowOf (l1 ++ l2) = max (maxRowOf l1) (maxRowOf l2) := by
  rw [maxRowOf_eq, maxRowOf_eq, maxRowOf_eq, List.map_append, listMax_append]

theorem maxColOf_append (l1 l2 : List Cell) :
    maxColOf (l1 ++ l2) = max (maxColOf l1) (maxColOf l2) := by
  rw [maxColOf_eq, maxColOf_eq, maxColOf_eq, List.map_append, listMax_append]

theorem row_le_maxRowOf (cells : List Cell) (c : Cell) (h : c ∈ cells) :
    c.row ≤ maxRowOf cells := by
  rw [maxRowOf_eq]
  exact le_listMax _ _ (List.mem_map_of_mem Cell.row h)

theorem col_le_maxColOf (cells : List Cell) (c : Cell) (h : c ∈ cells) :
    c.col ≤ maxColOf cells := by
  rw [maxColOf_eq]
  exact le_listMax _ _ (List.mem_map_of_mem Cell.col h)

theorem mem_rowCells (i : Nat) (j : Nat) (vs : List String) :
    ∀ c ∈ rowCells i j vs, c.row = i ∧ j ≤ c.col ∧ c.col < j + vs.length := by
  induction vs generalizing j with
  | nil => intro c hc; cases hc
  | cons v vs ih =>
      intro c hc
      rcases List.mem_cons.mp hc with h | h
      · subst h; exact ⟨rfl, Nat.le_refl _, by simp⟩
      · obtain ⟨h1, h2, h3⟩ := ih (j + 1) c h
        exact ⟨h1, by omega, by simp; omega⟩

theorem mem_rectCells (k : Nat) (rect : List (List String)) :
    ∀ c ∈ rectCells k rect, k ≤ c.row ∧ c.row < k + rect.length := by
  induction rect generalizing k with
  | nil => intro c hc; cases hc
  | cons row rest ih =>
      intro c hc
      rcases List.mem_append.mp hc with h | h
      · obtain ⟨h1, _, _⟩ := mem_rowCells k 1 row c h
        simp [h1]
      · obtain ⟨h1, h2⟩ := ih (k + 1) c h
        constructor <;> [omega; · simp at h2 ⊢; omega]

theorem lastWriteFrom_append (a : String) (l1 l2 : List Cell) (i j : Nat) :
    lastWriteFrom a (l1 ++ l2) i j = lastWriteFrom (lastWriteFrom a l1 i j) l2 i j := by
  simp [lastWriteFrom, List.foldl_append]

theorem lastWriteFrom_notin (a : String) (l : List Cell) (i j : Nat)
    (h : ∀ c ∈ l, ¬(c.row = i ∧ c.col = j)) : lastWriteFrom a l i j = a := by
  induction l generalizing a with
  | nil => rfl
  | cons c cs ih =>
      rw [show lastWriteFrom a (c :: cs) i j
          = lastWriteFrom (if c.row = i ∧ c.col = j then c.value else a) cs i j from rfl,
        if_neg (h c (List.mem_cons_self _ _))]
      exact ih a fun c' hc' => h c' (List.mem_cons_of_mem _ hc')

theorem rowCells_lookup (i : Nat) (vs : List String) (j c : Nat) (a : String) :
    lastWriteFrom a (rowCells i j vs) i c =
      if j ≤ c ∧ c < j + vs.length then vs.getD (c - j) "" else a := by
  induction vs generalizing j a with
  | nil =>
      rw [if_neg (by simp only [List.length_nil]; omega)]
      rfl
  | cons v vs ih =>
      rw [show lastWriteFrom a (rowCells i j (v :: vs)) i c
          = lastWriteFrom (if i = i ∧ j = c then v else a) (rowCells i (j + 1) vs) i c
          from rfl]
      by_cases hj : j = c
      · subst hj
        rw [if_pos ⟨rfl, rfl⟩,
          lastWriteFrom_notin _ _ _ _ (by
            intro c' hc'
            obtain ⟨_, h2, _⟩ := mem_rowCells i (j + 1) vs c' hc'
            omega),
          if_pos (by simp only [List.length_cons]; omega), Nat.sub_self,
          List.getD_cons_zero]
      · rw [if_neg (by simp [hj]), ih]
        have hget : (v :: vs).getD (c - j) "" = vs.getD (c - (j + 1)) "" ∨ ¬ j ≤ c := by
          by_cases hlt : j ≤ c
          · left
            have hik : c - j = (c - (j + 1)) + 1 := by omega
            rw [hik, List.getD_cons_succ]
          · right; exact hlt
        by_cases hlt : j ≤ c
        · rcases hget with hget | hget
          · rw [hget]
            refine if_congr ?_ rfl rfl
            simp only [List.length_cons]
            omega
          · exact absurd hlt hget
        · rw [if_neg (by omega), if_neg (by omega)]

theorem rectCells_lookup (rect : List (List String)) (k r c : Nat) (a : String)
    (hr : k ≤ r) (hc : 1 ≤ c) :
    lastWriteFrom a (rectCells k rect) r c =
      if r - k < rect.length ∧ c - 1 < (rect.getD (r - k) []).length
      then (rect.getD (r - k) []).getD (c - 1) "" else a := by
  induction rect generalizing k a with
  | nil =>
      rw [if_neg (by simp)]
      rfl
  | cons row rest ih =>
      rw [show rectCells k (row :: rest) = rowCells k 1 row ++ rectCells (k + 1) rest
          from rfl, lastWriteFrom_append]
      by_cases hrk : r = k
      · subst hrk
        rw [lastWriteFrom_notin _ _ _ _ (by
            intro c' hc'
            obtain ⟨h1, _⟩ := mem_rectCells (r + 1) rest c' hc'
            omega),
          rowCells_lookup, Nat.sub_self, List.getD_cons_zero]
        refine if_congr ?_ rfl rfl
        simp only [List.length_cons]
        omega
      · have hr1 : k + 1 ≤ r := by omega
        rw [lastWriteFrom_notin a (rowCells k 1 row) r c (by
            intro c' hc'
            obtain ⟨h1, _, _⟩ := mem_rowCells k 1 row c' hc'
            omega),
          ih (k + 1) a hr1]
        have hget : (row :: rest).getD (r - k) [] = rest.getD (r - (k + 1)) [] := by
          have hik : r - k = (r - (k + 1)) + 1 := by omega
          rw [hik, List.getD_cons_succ]
        rw [hget]
        refine if_congr ?_ rfl rfl
        simp only [List.length_cons]
        omega

theorem getD_replicate_self {α : Type} (d : α) (n i : Nat) :
    (List.replicate n d).getD i d = d := by
  induction n generalizing i with
  | zero => rfl
  | succ n ih =>
      cases i with
      | zero => rfl
      | succ i => rw [List.replicate_succ, List.getD_cons_succ]; exact ih i

theorem getD_append_replicate {α : Type} (l : List α) (m i : Nat) (d : α) :
    (l ++ List.replicate m d).getD i d = l.getD i d := by
  by_cases h : i < l.length
  · rw [List.getD_append _ _ _ _ h]
  · rw [List.getD_append_right _ _ _ _ (by omega), getD_replicate_self,
      List.getD_eq_default _ _ (by omega)]

theorem map_rightPad_getD (C : Nat) (l : List (List String)) (i j : Nat) :
    ((l.map (fun r => rightPad r C)).getD i []).getD j "" = (l.getD i []).getD j "" := by
  induction l generalizing i with
  | nil => rfl
  | cons x xs ih =>
      cases i with
      | zero =>
          rw [List.map_cons, List.getD_cons_zero, List.getD_cons_zero, rightPad,
            getD_append_replicate]
      | succ i => rw [List.map_cons, List.getD_cons_succ, List.getD_cons_succ]; exact ih i

theorem fill_gaps_getD (L : List (List String)) (R C i j : Nat) :
    ((fill_gaps L R C).getD i []).getD j "" = (L.getD i []).getD j "" := by
  rw [fill_gaps, map_rightPad_getD, getD_append_replicate]

theorem rightPad_length (row : List String) (n : Nat) :
    (rightPad row n).length = max n row.length := by
  rw [rightPad, List.length_append, List.length_replicate, Nat.max_def]
  split <;> omega

theorem fill_gaps_length (L : List (List String)) (R C : Nat) :
    (fill_gaps L R C).length = max R L.length := by
  rw [fill_gaps, List.length_map, List.length_append, List.length_replicate,
    Nat.max_def]
  split <;> omega

theorem getD_map_len (C : Nat) (l : List (List String)) (i : Nat) :
    (l.getD i []).length ≤ ((l.map (fun r => rightPad r C)).getD i []).length := by
  induction l generalizing i with
  | nil => exact Nat.le_refl _
  | cons x xs ih =>
      cases i with
      | zero =>
          rw [List.map_cons, List.getD_cons_zero, List.getD_cons_zero, rightPad_length]
          exact Nat.le_max_right _ _
      | succ i => rw [List.map_cons, List.getD_cons_succ, List.getD_cons_succ]; exact ih i

theorem fill_gaps_row_len_le (L : List (List String)) (R C i : Nat) :
    (L.getD i []).length ≤ ((fill_gaps L R C).getD i []).length := by
  rw [fill_gaps]
  calc (L.getD i []).length
      = ((L ++ List.replicate (R - L.length) []).getD i []).length := by
        rw [getD_append_replicate]
    _ ≤ _ := getD_map_len C _ i

theorem mem_fill_gaps (L : List (List String)) (R C : Nat) (row : List String)
    (h : row ∈ fill_gaps L R C) :
    C ≤ row.length ∧ row.length ≤ max C (maxColPresent L) := by
  rw [fill_gaps] at h
  obtain ⟨r, hr, rfl⟩ := List.mem_map.mp h
  rw [rightPad_length]
  rcases List.mem_append.mp hr with hr | hr
  · have hle : r.length ≤ maxColPresent L := by
      rw [maxColPresent]
      exact le_listMax _ _ (List.mem_map_of_mem List.length hr)
    exact ⟨Nat.le_max_left _ _,
      Nat.max_le.mpr ⟨Nat.le_max_left _ _, Nat.le_trans hle (Nat.le_max_right _ _)⟩⟩
  · rw [List.eq_of_mem_replicate hr]
    simp

theorem maxColPresent_fill_gaps (L : List (List String)) (R C : Nat)
    (hne : fill_gaps L R C ≠ []) :
    maxColPresent (fill_gaps L R C) = max C (maxColPresent L) := by
  apply Nat.le_antisymm
  · rw [maxColPresent]
    apply listMax_le
    intro a ha
    obtain ⟨row, hrow, rfl⟩ := List.mem_map.mp ha
    exact (mem_fill_gaps L R C row hrow).2
  · obtain ⟨row, hrow⟩ := List.exists_mem_of_ne_nil _ hne
    apply Nat.max_le.mpr
    constructor
    · have h1 : C ≤ row.length := (mem_fill_gaps L R C row hrow).1
      have h2 : row.length ≤ maxColPresent (fill_gaps L R C) := by
        rw [maxColPresent]
        exact le_listMax _ _ (List.mem_map_of_mem List.length hrow)
      omega
    · rw [maxColPresent]
      apply listMax_le
      intro a ha
      obtain ⟨r, hr, rfl⟩ := List.mem_map.mp ha
      have hmem : rightPad r C ∈ fill_gaps L R C := by
        rw [fill_gaps]
        exact List.mem_map_of_mem _ (List.mem_append_left _ hr)
      have h2 : (rightPad r C).length ≤ maxColPresent (fill_gaps L R C) := by
        rw [maxColPresent]
        exact le_listMax _ _ (List.mem_map_of_mem List.length hmem)
      rw [rightPad_length] at h2
      have h3 : r.length ≤ max C r.length := Nat.le_max_right _ _
      omega

theorem maxRowOf_cons (c : Cell) (cs : List Cell) :
    maxRowOf (c :: cs) = max c.row (maxRowOf cs) := by
  rw [maxRowOf_eq, List.map_cons, listMax_cons, maxRowOf_eq]

theorem maxColOf_cons (c : Cell) (cs : List Cell) :
    maxColOf (c :: cs) = max c.col (maxColOf cs) := by
  rw [maxColOf_eq, List.map_cons, listMax_cons, maxColOf_eq]

theorem maxRowOf_rowCells (i j : Nat) (vs : List String) :
    maxRowOf (rowCells i j vs) = if vs = [] then 0 else i := by
  induction vs generalizing j with
  | nil => rfl
  | cons v vs ih =>
      rw [if_neg (by simp),
        show rowCells i j (v :: vs) = ⟨i, j, v⟩ :: rowCells i (j + 1) vs from rfl,
        maxRowOf_cons, ih]
      show max i (if vs = [] then 0 else i) = i
      by_cases h : vs = []
      · rw [if_pos h, Nat.max_zero]
      · rw [if_neg h, Nat.max_self]

theorem maxColOf_rowCells (i j : Nat) (vs : List String) :
    maxColOf (rowCells i j vs) = if vs = [] then 0 else j + vs.length - 1 := by
  induction vs generalizing j with
  | nil => rfl
  | cons v vs ih =>
      rw [if_neg (by simp),
        show rowCells i j (v :: vs) = ⟨i, j, v⟩ :: rowCells i (j + 1) vs from rfl,
        maxColOf_cons, ih]
      show max j (if vs = [] then 0 else (j + 1) + vs.length - 1)
          = j + (v :: vs).length - 1
      by_cases h : vs = []
      · subst h
        rw [if_pos rfl, Nat.max_zero]
        simp
      · rw [if_neg h]
        have hlp : 0 < vs.length := List.length_pos.mpr h
        rw [Nat.max_eq_right (by omega)]
        simp only [List.length_cons]
        omega

theorem maxColOf_rowCells_one (i : Nat) (row : List String) :
    maxColOf (rowCells i 1 row) = row.length := by
  rw [maxColOf_rowCells]
  by_cases h : row = []
  · subst h; rfl
  · rw [if_neg h]
    have := List.length_pos.mpr h
    omega

theorem maxColOf_rectCells (k : Nat) (rect : List (List String)) :
    maxColOf (rectCells k rect) = maxColPresent rect := by
  induction rect generalizing k with
  | nil => rfl
  | cons row rest ih =>
      rw [show rectCells k (row :: rest) = rowCells k 1 row ++ rectCells (k + 1) rest
          from rfl,
        maxColOf_append, maxColOf_rowCells_one, ih (k + 1),
        show maxColPresent (row :: rest) = max row.length (maxColPresent rest) from by
          rw [maxColPresent, List.map_cons, listMax_cons]; rfl]

theorem maxRowOf_rectCells (k : Nat) (rect : List (List String))
    (hne : rect ≠ []) (hall : ∀ row ∈ rect, row ≠ []) :
    maxRowOf (rectCells k rect) + 1 = k + rect.length := by
  induction rect generalizing k with
  | nil => exact absurd rfl hne
  | cons row rest ih =>
      rw [show rectCells k (row :: rest) = rowCells k 1 row ++ rectCells (k + 1) rest
          from rfl,
        maxRowOf_append, maxRowOf_rowCells,
        if_neg (hall row (List.mem_cons_self _ _))]
      by_cases h : rest = []
      · subst h
        show max k (maxRowOf []) + 1 = k + 1
        rw [show maxRowOf [] = 0 from rfl, Nat.max_zero]
      · have hm := ih (k + 1) h fun r hr => hall r (List.mem_cons_of_mem _ hr)
        have hv : maxRowOf (rectCells (k + 1) rest) = k + rest.length := by omega
        rw [hv, Nat.max_eq_right (Nat.le_add_right _ _)]
        simp only [List.length_cons]
        omega

theorem rowCells_eq_nil (i j : Nat) (vs : List String) :
    rowCells i j vs = [] ↔ vs = [] := by
  cases vs <;> simp [rowCells]

theorem rectCells_eq_nil (k : Nat) (rect : List (List String)) :
    rectCells k rect = [] ↔ ∀ row ∈ rect, row = [] := by
  induction rect generalizing k with
  | nil => simp [rectCells]
  | cons row rest ih =>
      rw [show rectCells k (row :: rest) = rowCells k 1 row ++ rectCells (k + 1) rest
          from rfl]
      simp [List.append_eq_nil, rowCells_eq_nil, ih (k + 1)]

theorem rowCells_mem_getD (i j0 : Nat) (vs : List String) (j : Nat) (hj : j < vs.length) :
    (⟨i, j0 + j, vs.getD j ""⟩ : Cell) ∈ rowCells i j0 vs := by
  induction vs generalizing j0 j with
  | nil => exact absurd hj (by simp)
  | cons v vs ih =>
      cases j with
      | zero =>
          rw [List.getD_cons_zero]
          simp [rowCells]
      | succ j =>
          rw [List.getD_cons_succ,
            show j0 + (j + 1) = (j0 + 1) + j from by omega]
          exact List.mem_cons_of_mem _ (ih (j0 + 1) j (by simp at hj; omega))

theorem rectCells_mem_getD (k : Nat) (rect : List (List String)) (i j : Nat)
    (hi : i < rect.length) (hj : j < (rect.getD i []).length) :
    (⟨k + i, j + 1, (rect.getD i []).getD j ""⟩ : Cell) ∈ rectCells k rect := by
  induction rect generalizing k i with
  | nil => exact absurd hi (by simp)
  | cons row rest ih =>
      rw [show rectCells k (row :: rest) = rowCells k 1 row ++ rectCells (k + 1) rest
          from rfl]
      cases i with
      | zero =>
          rw [List.getD_cons_zero] at hj ⊢
          apply List.mem_append_left
          have hm := rowCells_mem_getD k 1 row j hj
          rw [show k + 0 = k from rfl, show j + 1 = 1 + j from by omega]
          exact hm
      | succ i =>
          rw [List.getD_cons_succ] at hj ⊢
          apply List.mem_append_right
          have hm := ih (k + 1) i (by simp at hi; omega) hj
          rw [show k + (i + 1) = (k + 1) + i from by omega]
          exact hm

theorem range_map_getD {α : Type} (n i : Nat) (f : Nat → α) (d : α) (h : i < n) :
    ((List.range n).map f).getD i d = f i := by
  rw [List.getD_eq_getElem?_getD, List.getElem?_map, List.getElem?_range h]
  rfl

theorem get_all_values_getD (ws : Worksheet) (values : List (List String)) (i j : Nat)
    (hi : i < (_get_all_values ws values).length)
    (hj : j < ((_get_all_values ws values).getD i []).length) :
    gridGet (_get_all_values ws values) i j = (values.getD i []).getD j "" := by
  by_cases hne : rectCells 1 (fill_gaps values ws.row_count ws.col_count) = []
  · rw [_get_all_values, denseFromCells, if_pos hne] at hi
    exact absurd hi (by simp)
  · rw [_get_all_values, denseFromCells, if_neg hne] at hi hj ⊢
    rw [List.length_map, List.length_range] at hi
    rw [range_map_getD _ _ _ _ hi, List.length_map, List.length_range] at hj
    rw [gridGet, range_map_getD _ _ _ _ hi, range_map_getD _ _ _ _ hj, lastWrite,
      rectCells_lookup _ _ _ _ _ (by omega) (by omega),
      show i + 1 - 1 = i from by omega, show j + 1 - 1 = j from by omega]
    by_cases hcond : i < (fill_gaps values ws.row_count ws.col_count).length ∧
        j < ((fill_gaps values ws.row_count ws.col_count).getD i []).length
    · rw [if_pos hcond, fill_gaps_getD]
    · rw [if_neg hcond]
      by_cases h : i < (fill_gaps values ws.row_count ws.col_count).length
      · have hj2 : ((fill_gaps values ws.row_count ws.col_count).getD i []).length ≤ j := by
          by_contra hlt
          exact hcond ⟨h, by omega⟩
        have hle := fill_gaps_row_len_le values ws.row_count ws.col_count i
        rw [List.getD_eq_default _ _ (by omega)]
      · have hlen : (fill_gaps values ws.row_count ws.col_count).length
            = max ws.row_count values.length := fill_gaps_length _ _ _
        have hile : values.length ≤ i := by
          have := Nat.le_max_right ws.row_count values.length
          omega
        rw [List.getD_eq_default _ _ hile]
        rfl

/-- Claim C5 counterexample: for the sparse listing with a single cell at
(1,1) and declared minimum sizes R = 5, C = 0, the produced grid has 1 row,
not max(R, max row index present) = 5 — because with a zero minimum column
count, padded rows receive no cells and the defaultdict stage drops them. -/
theorem grid_filler_shape_cex :
    (_get_all_values ⟨5, 0⟩ [["a"]]).length ≠ max 5 (maxRowPresent [["a"]]) := by
  decide

/-- Claim C5 (amended): restricted to a minimum column count C ≥ 1 and a
sparse listing without trailing cell-less rows (`maxRowPresent = length`),
the gap filler's output is rectangular: every row has length
max(C, max column index present), and the row count is
max(R, max row index present).  For the empty listing with R = C = 0 the
output is the empty sequence of rows. -/
theorem grid_filler_shape (values : List (List String)) (R C : Nat)
    (hC : 1 ≤ C) (hcanon : maxRowPresent values = values.length) :
    (_get_all_values ⟨R, C⟩ values).length = max R (maxRowPresent values) ∧
      (∀ row ∈ _get_all_values ⟨R, C⟩ values,
        row.length = max C (maxColPresent values)) ∧
      _get_all_values ⟨0, 0⟩ ([] : List (List String)) = [] := by
  rw [hcanon]
  have hlen : (fill_gaps values R C).length = max R values.length :=
    fill_gaps_length values R C
  by_cases hN : max R values.length = 0
  · have hfe : fill_gaps values R C = [] := List.length_eq_zero.mp (by omega)
    have hce : rectCells 1 (fill_gaps values R C) = [] := by
      rw [hfe]; rfl
    refine ⟨?_, ?_, rfl⟩
    · rw [_get_all_values, denseFromCells, if_pos hce]
      simp
      omega
    · intro row hrow
      rw [_get_all_values, denseFromCells, if_pos hce] at hrow
      cases hrow
  · have hLne : fill_gaps values R C ≠ [] := by
      intro h
      rw [h] at hlen
      exact hN (by simpa using hlen.symm)
    have hrows : ∀ row ∈ fill_gaps values R C, row ≠ [] := by
      intro row hrow h
      have := (mem_fill_gaps values R C row hrow).1
      rw [h] at this
      simp at this
      omega
    have hcne : rectCells 1 (fill_gaps values R C) ≠ [] := by
      rw [ne_eq, rectCells_eq_nil]
      intro hall
      obtain ⟨row, hrow⟩ := List.exists_mem_of_ne_nil _ hLne
      exact hrows row hrow (hall row hrow)
    have hmr : maxRowOf (rectCells 1 (fill_gaps values R C)) + 1
        = 1 + (fill_gaps values R C).length :=
      maxRowOf_rectCells 1 _ hLne hrows
    have hmc : maxColOf (rectCells 1 (fill_gaps values R C))
        = max C (maxColPresent values) := by
      rw [maxColOf_rectCells, maxColPresent_fill_gaps _ _ _ hLne]
    refine ⟨?_, ?_, rfl⟩
    · rw [_get_all_values, denseFromCells, if_neg hcne, List.length_map,
        List.length_range]
      show maxRowOf (rectCells 1 (fill_gaps values R C)) = max R values.length
      omega
    · intro row hrow
      rw [_get_all_values, denseFromCells, if_neg hcne] at hrow
      obtain ⟨i, _, rfl⟩ := List.mem_map.mp hrow
      rw [List.length_map, List.length_range, hmc]

/-- Witness for C5's amended theorem at a concrete canonical listing. -/
theorem grid_filler_shape_w :
    (_get_all_values ⟨3, 2⟩ [["x", "y"], ["z"]]).length
        = max 3 (maxRowPresent [["x", "y"], ["z"]]) ∧
      (∀ row ∈ _get_all_values ⟨3, 2⟩ [["x", "y"], ["z"]],
        row.length = max 2 (maxColPresent [["x", "y"], ["z"]])) ∧
      _get_all_values ⟨0, 0⟩ ([] : List (List String)) = [] :=
  grid_filler_shape [["x", "y"], ["z"]] 3 2 (by decide) (by decide)

/-- Claim C6: gap-fill identity.  Every cell present in the sparse listing at
1-based position (r, c) appears unchanged at 0-based position (r-1, c-1) of
the dense grid (which is large enough to contain it), and every position of
the dense grid that has no cell in the listing holds the empty string — for
every declared worksheet size, including zero. -/
theorem gap_fill_identity (values : List (List String)) (R C : Nat) :
    (∀ r c, 1 ≤ r → 1 ≤ c → r - 1 < values.length →
      c - 1 < (values.getD (r - 1) []).length →
        r - 1 < (_get_all_values ⟨R, C⟩ values).length ∧
          c - 1 < ((_get_all_values ⟨R, C⟩ values).getD (r - 1) []).length ∧
          gridGet (_get_all_values ⟨R, C⟩ values) (r - 1) (c - 1)
            = (values.getD (r - 1) []).getD (c - 1) "") ∧
      (∀ i j, i < (_get_all_values ⟨R, C⟩ values).length →
        j < ((_get_all_values ⟨R, C⟩ values).getD i []).length →
        ¬(i < values.length ∧ j < (values.getD i []).length) →
        gridGet (_get_all_values ⟨R, C⟩ values) i j = "") := by
  constructor
  · intro r c hr hc hrow hcol
    have hlen : (fill_gaps values R C).length = max R values.length :=
      fill_gaps_length values R C
    have h1 : r - 1 < (fill_gaps values R C).length := by
      have := Nat.le_max_right R values.length
      omega
    have h2 : c - 1 < ((fill_gaps values R C).getD (r - 1) []).length :=
      Nat.lt_of_lt_of_le hcol (fill_gaps_row_len_le values R C (r - 1))
    have hmem := rectCells_mem_getD 1 (fill_gaps values R C) (r - 1) (c - 1) h1 h2
    rw [show 1 + (r - 1) = r from by omega, show (c - 1) + 1 = c from by omega] at hmem
    have hrle : r ≤ maxRowOf (rectCells 1 (fill_gaps values R C)) :=
      row_le_maxRowOf _ _ hmem
    have hcle : c ≤ maxColOf (rectCells 1 (fill_gaps values R C)) :=
      col_le_maxColOf _ _ hmem
    have hcne : rectCells 1 (fill_gaps values R C) ≠ [] :=
      List.ne_nil_of_mem hmem
    have hi : r - 1 < (_get_all_values ⟨R, C⟩ values).length := by
      rw [_get_all_values, denseFromCells, if_neg hcne, List.length_map,
        List.length_range]
      show r - 1 < maxRowOf (rectCells 1 (fill_gaps values R C))
      omega
    have hj : c - 1 < ((_get_all_values ⟨R, C⟩ values).getD (r - 1) []).length := by
      have hi2 : r - 1 < maxRowOf (rectCells 1 (fill_gaps values R C)) := by omega
      rw [_get_all_values, denseFromCells, if_neg hcne,
        range_map_getD _ _ _ _ hi2, List.length_map, List.length_range]
      show c - 1 < maxColOf (rectCells 1 (fill_gaps values R C))
      omega
    exact ⟨hi, hj, get_all_values_getD ⟨R, C⟩ values (r - 1) (c - 1) hi hj⟩
  · intro i j hi hj habs
    rw [get_all_values_getD ⟨R, C⟩ values i j hi hj]
    rcases Nat.lt_or_ge i values.length with h | h
    · have hjj : (values.getD i []).length ≤ j := by
        rcases Nat.lt_or_ge j (values.getD i []).length with h2 | h2
        · exact absurd ⟨h, h2⟩ habs
        · exact h2
      exact List.getD_eq_default _ _ hjj
    · rw [List.getD_eq_default _ _ h]
      rfl

/-- Claim C1 (code bug), evaluated at the failing input: writing a
3-row-footprint table (header plus two data rows) to a 1x1 worksheet leaves
the worksheet 1x1 both with `resize = true` (the claim demands an exact
resize to the table's shape) and with `resize = false` (the claim demands a
grow-to-fit resize): the `resize` argument is ignored and no resize call is
ever issued. -/
theorem set_with_dataframe_never_resizes :
    set_with_dataframe ⟨1, 1⟩ df1 1 1 false true true true .default
        = .ok (⟨1, 1⟩, [(1, 1, .s "A"), (2, 1, .n 1), (3, 1, .n 2)]) ∧
      set_with_dataframe ⟨1, 1⟩ df1 1 1 false true false true .default
        = .ok (⟨1, 1⟩, [(1, 1, .s "A"), (2, 1, .n 1), (3, 1, .n 2)]) := by
  constructor <;> rfl

/-- Claim C2 (code bug), evaluated at the failing input: with
`include_column_header = false` the batch writer applied to the singleton
lists still emits the header row and shifts the data down one row, while the
single-table writer emits no header — the two plans differ. -/
theorem batch_single_divergence :
    set_with_dataframes_updates [df1] [1] 1 false false true .default
        = .ok [(1, 1, .s "A"), (2, 1, .n 1), (3, 1, .n 2)] ∧
      set_with_dataframe_updates df1 1 1 false false true .default
        = .ok [(1, 1, .n 1), (2, 1, .n 2)] ∧
      set_with_dataframes_updates [df1] [1] 1 false false true .default
        ≠ set_with_dataframe_updates df1 1 1 false false true .default := by
  refine ⟨rfl, rfl, by decide⟩

/-- The USER_ENTERED storage of a default-policy literal recovers the
value's text: quote-escaping and quote-consumption cancel. -/
theorem store_defLit (v : PyValue) : storeLiteral (defLit v) = pyText v := by
  cases v with
  | pynone => rfl
  | num x => rfl
  | bool b => cases b <;> rfl
  | str s =>
      by_cases h : strStarts s '\'' = true
      · show storeLiteral (.s (if strStarts s '\'' then "'" ++ s else s)) = s
        rw [if_pos h, storeLiteral,
          if_pos (show strStarts ("'" ++ s) '\'' = true from rfl)]
        show String.mk (("'" ++ s).data.drop 1) = s
        rw [show ("'" ++ s).data = '\'' :: s.data from rfl, List.drop_one, List.tail_cons]
      · show storeLiteral (.s (if strStarts s '\'' then "'" ++ s else s)) = s
        rw [if_neg h, storeLiteral, if_neg h]

/-- Under `allow_formulas = true` and the default policy, the serializer is
total with value `defLit`. -/
theorem cellrepr_default (v : PyValue) : _cellrepr v true .default = .ok (defLit v) := by
  cases v with
  | pynone => rfl
  | num x => rfl
  | bool b => rfl
  | str s =>
      by_cases hs : s = ""
      · subst hs; rfl
      · by_cases hq : strStarts s '\'' = true <;>
          simp [_cellrepr, _escaped_string, defLit, hs, hq, Except.map]

theorem planRow_default (r c : Nat) (vals : List PyValue) :
    planRow r c true .default vals = .ok (planRowDefault r c vals) := by
  induction vals generalizing c with
  | nil => rfl
  | cons v vs ih =>
      show (do
          let w ← _cellrepr v true .default
          let rest ← planRow r (c + 1) true .default vs
          pure ((r, c, w) :: rest) : Except ConfError (List Update)) = _
      rw [cellrepr_default, ih (c + 1)]
      rfl

theorem planRows_default (r c : Nat) (m : List (List PyValue)) :
    planRows r c true .default m = .ok (planRowsDefault r c m) := by
  induction m generalizing r with
  | nil => rfl
  | cons row rest ih =>
      show (do
          let l ← planRow r c true .default row
          let ls ← planRows (r + 1) c true .default rest
          pure (l ++ ls) : Except ConfError (List Update)) = _
      rw [planRow_default, ih (r + 1)]
      rfl

/-- With `include_index = false` the iterated data rows are exactly
`dataframe.values` (the zip with the equally-long index is discarded). -/
theorem dataMatrix_false (df : DataFrame) : dataMatrix df false = df.values := by
  show (df.values.zip df.index).map (fun p => p.1) = df.values
  exact List.map_fst_zip df.values df.index (by rw [df.hlen])

/-- The plan of `set_with_dataframe` at anchor (1,1) with
`include_index = false`, `include_column_header = true`, default policy. -/
theorem swd_updates_default (df : DataFrame) :
    set_with_dataframe_updates df 1 1 false true true .default
      = .ok (planRowDefault 1 1 df.columns ++ planRowsDefault 2 1 df.values) := by
  show (do
      let hdr ← planRow 1 1 true .default df.columns
      let body ← planRows 2 1 true .default (dataMatrix df false)
      pure (hdr ++ body) : Except ConfError (List Update)) = _
  rw [planRow_default, dataMatrix_false, planRows_default]
  rfl

theorem applyUpdates_append (g : SheetFun) (l1 l2 : List Update) :
    applyUpdates g (l1 ++ l2) = applyUpdates (applyUpdates g l1) l2 := by
  simp [applyUpdates, List.foldl_append]

theorem applyUpdates_notin (g : SheetFun) (l : List Update) (r c : Nat)
    (h : ∀ u ∈ l, ¬(r = u.1 ∧ c = u.2.1)) : applyUpdates g l r c = g r c := by
  induction l generalizing g with
  | nil => rfl
  | cons u us ih =>
      show applyUpdates
        (fun r' c' => if r' = u.1 ∧ c' = u.2.1 then storeLiteral u.2.2 else g r' c')
        us r c = g r c
      rw [ih _ fun u' hu' => h u' (List.mem_cons_of_mem _ hu')]
      exact if_neg (h u (List.mem_cons_self _ _))

theorem planRowDefault_mem (r c : Nat) (vals : List PyValue) :
    ∀ u ∈ planRowDefault r c vals, u.1 = r ∧ c ≤ u.2.1 ∧ u.2.1 < c + vals.length := by
  induction vals generalizing c with
  | nil => intro u hu; cases hu
  | cons v vs ih =>
      intro u hu
      rcases List.mem_cons.mp hu with h | h
      · subst h
        exact ⟨rfl, Nat.le_refl _, by simp only [List.length_cons]; omega⟩
      · obtain ⟨h1, h2, h3⟩ := ih (c + 1) u h
        exact ⟨h1, by omega, by simp only [List.length_cons]; omega⟩

theorem planRowsDefault_mem (r c : Nat) (m : List (List PyValue)) :
    ∀ u ∈ planRowsDefault r c m, r ≤ u.1 ∧ u.1 < r + m.length := by
  induction m generalizing r with
  | nil => intro u hu; cases hu
  | cons row rest ih =>
      intro u hu
      rcases List.mem_append.mp hu with h | h
      · obtain ⟨h1, _, _⟩ := planRowDefault_mem r c row u h
        simp only [List.length_cons]
        omega
      · obtain ⟨h1, h2⟩ := ih (r + 1) u h
        simp only [List.length_cons]
        omega

theorem applyUpdates_planRowDefault (g : SheetFun) (r c : Nat)
    (vals : List PyValue) (a b : Nat) :
    applyUpdates g (planRowDefault r c vals) a b =
      if a = r ∧ c ≤ b ∧ b < c + vals.length
      then storeLiteral (defLit (vals.getD (b - c) .pynone)) else g a b := by
  induction vals generalizing c g with
  | nil =>
      rw [if_neg (by simp only [List.length_nil]; omega)]
      rfl
  | cons v vs ih =>
      show applyUpdates
        (fun a' b' => if a' = r ∧ b' = c then storeLiteral (defLit v) else g a' b')
        (planRowDefault r (c + 1) vs) a b = _
      rw [ih]
      by_cases h1 : a = r ∧ c + 1 ≤ b ∧ b < c + 1 + vs.length
      · rw [if_pos h1, if_pos (by simp only [List.length_cons]; omega)]
        have hb : b - c = (b - (c + 1)) + 1 := by omega
        rw [hb, List.getD_cons_succ]
      · rw [if_neg h1]
        show (if a = r ∧ b = c then storeLiteral (defLit v) else g a b) = _
        by_cases h2 : a = r ∧ b = c
        · rw [if_pos h2, if_pos (by simp only [List.length_cons]; omega)]
          obtain ⟨ha, hb⟩ := h2
          rw [hb, Nat.sub_self, List.getD_cons_zero]
        · rw [if_neg h2, if_neg (by simp only [List.length_cons]; omega)]

theorem applyUpdates_planRowsDefault (g : SheetFun) (r c : Nat)
    (m : List (List PyValue)) (a b : Nat) :
    applyUpdates g (planRowsDefault r c m) a b =
      if r ≤ a ∧ a < r + m.length ∧ c ≤ b ∧ b < c + (m.getD (a - r) []).length
      then storeLiteral (defLit ((m.getD (a - r) []).getD (b - c) .pynone))
      else g a b := by
  induction m generalizing r g with
  | nil =>
      rw [if_neg (by simp only [List.length_nil]; omega)]
      rfl
  | cons row rest ih =>
      rw [show planRowsDefault r c (row :: rest)
          = planRowDefault r c row ++ planRowsDefault (r + 1) c rest from rfl,
        applyUpdates_append, ih]
      by_cases hra : a = r
      · subst hra
        rw [if_neg (by omega),
          applyUpdates_planRowDefault, Nat.sub_self, List.getD_cons_zero]
        refine if_congr ?_ rfl rfl
        simp only [List.length_cons, eq_self_iff_true, true_and]
        omega
      · have hget : (row :: rest).getD (a - r) [] = rest.getD (a - (r + 1)) []
            ∨ a < r := by
          rcases Nat.lt_or_ge a r with h | h
          · exact Or.inr h
          · have : a - r = (a - (r + 1)) + 1 ∨ a = r := by omega
            rcases this with h2 | h2
            · exact Or.inl (by rw [h2, List.getD_cons_succ])
            · exact absurd h2 hra
        rcases hget with hget | hlt
        · rw [hget]
          by_cases hcond : r + 1 ≤ a ∧ a < r + 1 + rest.length ∧ c ≤ b ∧
              b < c + (rest.getD (a - (r + 1)) []).length
          · rw [if_pos hcond, if_pos (by simp only [List.length_cons]; omega)]
          · rw [if_neg hcond, if_neg (by simp only [List.length_cons]; omega),
              applyUpdates_planRowDefault,
              if_neg (by intro hgot; exact hra hgot.1)]
        · rw [if_neg (by omega), if_neg (by omega),
            applyUpdates_planRowDefault, if_neg (by intro hgot; exact hra hgot.1)]

theorem getD_mem {α : Type} (l : List α) (d : α) (n : Nat) (h : n < l.length) :
    l.getD n d ∈ l := by
  induction l generalizing n with
  | nil => simp at h
  | cons x xs ih =>
      cases n with
      | zero => exact List.mem_cons_self _ _
      | succ n =>
          rw [List.getD_cons_succ]
          exact List.mem_cons_of_mem _ (ih n (by simp at h; omega))

theorem list_ext_getD {α : Type} (d : α) (l1 l2 : List α) (hlen : l1.length = l2.length)
    (h : ∀ i, i < l1.length → l1.getD i d = l2.getD i d) : l1 = l2 := by
  induction l1 generalizing l2 with
  | nil => cases l2 with
    | nil => rfl
    | cons y ys => simp at hlen
  | cons x xs ih =>
      cases l2 with
      | nil => simp at hlen
      | cons y ys =>
          have h0 := h 0 (by simp)
          rw [List.getD_cons_zero, List.getD_cons_zero] at h0
          subst h0
          rw [ih ys (by simpa using hlen) fun i hi => by
            have hsucc := h (i + 1) (by simp only [List.length_cons]; omega)
            rwa [List.getD_cons_succ, List.getD_cons_succ] at hsucc]

theorem listMax_const (n : Nat) (l : List Nat) (hne : l ≠ [])
    (hall : ∀ a ∈ l, a = n) : listMax l = n := by
  apply Nat.le_antisymm
  · exact listMax_le l n fun a ha => (hall a ha) ▸ Nat.le_refl n
  · obtain ⟨a, ha⟩ := List.exists_mem_of_ne_nil l hne
    exact (hall a ha) ▸ le_listMax l a ha

/-- Reading back an exactly rectangular grid of the worksheet's declared
size reproduces it unchanged. -/
theorem get_all_values_rect (ws : Worksheet) (grid : List (List String))
    (hlen : grid.length = ws.row_count)
    (hrows : ∀ row ∈ grid, row.length = ws.col_count)
    (hR : 1 ≤ ws.row_count) (hC : 1 ≤ ws.col_count) :
    _get_all_values ws grid = grid := by
  have hfg : fill_gaps grid ws.row_count ws.col_count = grid := by
    rw [fill_gaps, show ws.row_count - grid.length = 0 from by omega,
      List.replicate_zero, List.append_nil]
    have hmap : ∀ row ∈ grid, rightPad row ws.col_count = row := by
      intro row hrow
      rw [rightPad, show ws.col_count - row.length = 0 from by
          have := hrows row hrow; omega,
        List.replicate_zero, List.append_nil]
    calc grid.map (fun r => rightPad r ws.col_count) = grid.map id :=
          List.map_congr_left hmap
      _ = grid := List.map_id grid
  rw [_get_all_values, hfg]
  have hgne : grid ≠ [] := by
    intro h
    rw [h] at hlen
    simp at hlen
    omega
  have hrne : ∀ row ∈ grid, row ≠ [] := by
    intro row hrow h
    have hl := hrows row hrow
    rw [h] at hl
    simp at hl
    omega
  have hcne : rectCells 1 grid ≠ [] := by
    rw [ne_eq, rectCells_eq_nil]
    intro hall
    obtain ⟨row, hrow⟩ := List.exists_mem_of_ne_nil _ hgne
    exact hrne row hrow (hall row hrow)
  have hmr : maxRowOf (rectCells 1 grid) = grid.length := by
    have := maxRowOf_rectCells 1 grid hgne hrne
    omega
  have hmc : maxColOf (rectCells 1 grid) = ws.col_count := by
    rw [maxColOf_rectCells, maxColPresent]
    apply listMax_const
    · intro h
      rw [List.map_eq_nil_iff] at h
      exact hgne h
    · intro a ha
      obtain ⟨row, hrow, rfl⟩ := List.mem_map.mp ha
      exact hrows row hrow
  rw [denseFromCells, if_neg hcne, hmr, hmc]
  apply list_ext_getD ([] : List String)
  · rw [List.length_map, List.length_range]
  · intro i hi
    rw [List.length_map, List.length_range] at hi
    have hmem : grid.getD i [] ∈ grid := getD_mem _ _ _ hi
    rw [range_map_getD _ _ _ _ hi]
    apply list_ext_getD ""
    · rw [List.length_map, List.length_range, hrows _ hmem]
    · intro j hj
      rw [List.length_map, List.length_range] at hj
      rw [range_map_getD _ _ _ _ hj, lastWrite,
        rectCells_lookup _ _ _ _ _ (by omega) (by omega),
        show i + 1 - 1 = i from by omega, show j + 1 - 1 = j from by omega,
        if_pos ⟨hi, by rw [hrows _ hmem]; omega⟩]

theorem getD_map_pyText (l : List PyValue) (j : Nat) :
    (l.map pyText).getD j "" = pyText (l.getD j .pynone) := by
  induction l generalizing j with
  | nil => rfl
  | cons x xs ih =>
      cases j with
      | zero => rfl
      | succ j => rw [List.map_cons, List.getD_cons_succ, List.getD_cons_succ]; exact ih j

theorem getD_map_row_pyText (l : List (List PyValue)) (y : Nat) :
    (l.map (fun r => r.map pyText)).getD y [] = (l.getD y []).map pyText := by
  induction l generalizing y with
  | nil => rfl
  | cons x xs ih =>
      cases y with
      | zero => rfl
      | succ y => rw [List.map_cons, List.getD_cons_succ, List.getD_cons_succ]; exact ih y

/-- The sheet cell texts after applying the write plan of a table anchored
at (1,1): row 1 holds the column labels' texts, rows 2..n+1 the data rows'
texts. -/
theorem sheet_after_write (df : DataFrame)
    (hrect : ∀ row ∈ df.values, row.length = df.columns.length)
    (i j : Nat) (hi : i < df.values.length + 1) (hj : j < df.columns.length) :
    applyUpdates emptySheet
        (planRowDefault 1 1 df.columns ++ planRowsDefault 2 1 df.values)
        (i + 1) (j + 1)
      = if i = 0 then pyText (df.columns.getD j .pynone)
        else pyText ((df.values.getD (i - 1) []).getD j .pynone) := by
  rw [applyUpdates_append, applyUpdates_planRowsDefault]
  by_cases h0 : i = 0
  · subst h0
    rw [if_neg (by omega), applyUpdates_planRowDefault, if_pos (by omega),
      show j + 1 - 1 = j from by omega, store_defLit, if_pos rfl]
  · have hmem : df.values.getD (i + 1 - 2) [] ∈ df.values :=
      getD_mem _ _ _ (by omega)
    have hrow : (df.values.getD (i + 1 - 2) []).length = df.columns.length :=
      hrect _ hmem
    rw [if_pos ⟨by omega, by omega, by omega, by rw [hrow]; omega⟩,
      show i + 1 - 2 = i - 1 from by omega, show j + 1 - 1 = j from by omega,
      store_defLit, if_neg h0]

/-- The listing of the whole worksheet after the write: the header texts
followed by the data texts. -/
theorem listing_after_write (df : DataFrame)
    (hrect : ∀ row ∈ df.values, row.length = df.columns.length) :
    sheetListing
        (applyUpdates emptySheet
          (planRowDefault 1 1 df.columns ++ planRowsDefault 2 1 df.values))
        (df.values.length + 1) df.columns.length
      = df.columns.map pyText :: df.values.map (fun r => r.map pyText) := by
  rw [sheetListing]
  apply list_ext_getD ([] : List String)
  · rw [List.length_map, List.length_range]
    simp
  · intro i hi
    rw [List.length_map, List.length_range] at hi
    rw [range_map_getD _ _ _ _ hi]
    cases i with
    | zero =>
        rw [List.getD_cons_zero]
        apply list_ext_getD ""
        · rw [List.length_map, List.length_range, List.length_map]
        · intro j hj
          rw [List.length_map, List.length_range] at hj
          rw [range_map_getD _ _ _ _ hj, sheet_after_write df hrect 0 j (by omega) hj,
            if_pos rfl, getD_map_pyText]
    | succ y =>
        rw [List.getD_cons_succ, getD_map_row_pyText]
        apply list_ext_getD ""
        · rw [List.length_map, List.length_range, List.length_map,
            hrect _ (getD_mem _ _ _ (by omega))]
        · intro j hj
          rw [List.length_map, List.length_range] at hj
          rw [range_map_getD _ _ _ _ hj,
            sheet_after_write df hrect (y + 1) j (by omega) hj,
            if_neg (by omega), show y + 1 - 1 = y from by omega, getD_map_pyText]

/-- Claim C7: writing a table with `include_index = false`,
`include_column_header = true` and the remaining defaults
(`allow_formulas = true`, `string_escaping = 'default'`) to a blank
worksheet of exactly the written footprint, then reading the same range
back with default options, reproduces the original column labels and the
original cell values — all read back as text (the text of a written string
value is the string itself, quote-escaping and the sheet's quote-consuming
storage cancelling out). -/
theorem write_read_round_trip (df : DataFrame) (hcols : df.columns ≠ [])
    (hrect : ∀ row ∈ df.values, row.length = df.columns.length) :
    set_with_dataframe ⟨df.values.length + 1, df.columns.length⟩ df 1 1
        false true false true .default
      = .ok (⟨df.values.length + 1, df.columns.length⟩,
          planRowDefault 1 1 df.columns ++ planRowsDefault 2 1 df.values) ∧
      get_as_dataframe ⟨df.values.length + 1, df.columns.length⟩
        (applyUpdates emptySheet
          (planRowDefault 1 1 df.columns ++ planRowsDefault 2 1 df.values))
      = (df.columns.map pyText, df.values.map (fun r => r.map pyText)) := by
  constructor
  · rw [set_with_dataframe, swd_updates_default]
    rfl
  · show tableFromGrid
        (_get_all_values ⟨df.values.length + 1, df.columns.length⟩
          (sheetListing
            (applyUpdates emptySheet
              (planRowDefault 1 1 df.columns ++ planRowsDefault 2 1 df.values))
            (df.values.length + 1) df.columns.length))
      = _
    rw [listing_after_write df hrect,
      get_all_values_rect ⟨df.values.length + 1, df.columns.length⟩ _
        (by simp)
        (by
          intro row hrow
          rcases List.mem_cons.mp hrow with h | h
          · rw [h, List.length_map]
          · obtain ⟨orig, horig, rfl⟩ := List.mem_map.mp h
            rw [List.length_map]
            exact hrect orig horig)
        (Nat.le_add_left 1 df.values.length)
        (List.length_pos.mpr hcols)]
    rfl

/-- Witness for C7 at `df2`. -/
theorem write_read_round_trip_w :
    set_with_dataframe ⟨df2.values.length + 1, df2.columns.length⟩ df2 1 1
        false true false true .default
      = .ok (⟨df2.values.length + 1, df2.columns.length⟩,
          planRowDefault 1 1 df2.columns ++ planRowsDefault 2 1 df2.values) ∧
      get_as_dataframe ⟨df2.values.length + 1, df2.columns.length⟩
        (applyUpdates emptySheet
          (planRowDefault 1 1 df2.columns ++ planRowsDefault 2 1 df2.values))
      = (df2.columns.map pyText, df2.values.map (fun r => r.map pyText)) :=
  write_read_round_trip df2 (by decide) (by decide)

/-- Witness for C6 at a concrete listing: the present cell (1,2) is
reproduced and the absent position (2,2) of the padded grid is blank. -/
theorem gap_fill_identity_w :
    (1 - 1 < (_get_all_values ⟨2, 3⟩ [["x", "y"]]).length ∧
      2 - 1 < ((_get_all_values ⟨2, 3⟩ [["x", "y"]]).getD (1 - 1) []).length ∧
      gridGet (_get_all_values ⟨2, 3⟩ [["x", "y"]]) (1 - 1) (2 - 1)
        = ([["x", "y"]].getD (1 - 1) []).getD (2 - 1) "") ∧
      gridGet (_get_all_values ⟨2, 3⟩ [["x", "y"]]) 1 1 = "" :=
  ⟨(gap_fill_identity [["x", "y"]] 2 3).1 1 2 (by decide) (by decide) (by decide)
      (by decide),
    (gap_fill_identity [["x", "y"]] 2 3).2 1 1 (by decide) (by decide) (by decide)⟩

end GspreadDF
